import Mathlib

/-!
Verification development for the cs_tools installer / environment-manager
subsystem (`cs_tools/updater/_updater.py`).

The Python source is shallowly embedded: file and registry contents are
`List Char`, command lines are `List String`, filesystem facts are explicit
fields of state structures, and the Python string operations used by the
source (`str.replace`, `str.partition`, substring tests, `str.startswith`)
are given as executable Lean functions with the same semantics.
-/

set_option maxRecDepth 8000

/-- Convert a string literal to its character list. -/
def chars (s : String) : List Char := s.data

/-- The apostrophe character. -/
def apos : Char := Char.ofNat 39

/-- Fuel-indexed worker for `listReplace`; the fuel bounds the number of
steps and is always instantiated with the length of the list, so the fuel
never runs out. -/
def replaceGo (pat repl : List Char) : Nat → List Char → List Char
  | 0, _ => []
  | fuel + 1, s =>
    if pat ≠ [] ∧ pat <+: s then
      repl ++ replaceGo pat repl fuel (s.drop pat.length)
    else
      match s with
      | [] => []
      | c :: s' => c :: replaceGo pat repl fuel s'

/-- Semantics of Python `s.replace(pat, repl)` on character lists: replaces
every non-overlapping occurrence of `pat`, scanning left to right.  An empty
pattern is treated as never matching (every use in the source has a
non-empty pattern). -/
def listReplace (pat repl s : List Char) : List Char :=
  replaceGo pat repl s.length s

/-- Semantics of Python `s.partition(pat)` on character lists: splits at the
first occurrence of `pat`, returning the part before, whether `pat` was
found, and the part after.  When `pat` does not occur, the whole input is
returned as the first component (as Python does). -/
def partitionList (pat : List Char) : List Char → List Char × Bool × List Char
  | [] => ([], false, [])
  | c :: s' =>
    if pat ≠ [] ∧ pat <+: (c :: s') then
      ([], true, (c :: s').drop pat.length)
    else
      let r := partitionList pat s'
      (c :: r.1, r.2.1, r.2.2)

-- Unfolding lemmas for the two string operations.

theorem replaceGo_nil (pat repl : List Char) (fuel : Nat) :
    replaceGo pat repl fuel [] = [] := by
  match fuel with
  | 0 => rfl
  | fuel + 1 =>
    rw [replaceGo]
    have hno : ¬ (pat ≠ [] ∧ pat <+: ([] : List Char)) := by
      rintro ⟨h1, h2⟩
      exact h1 (List.prefix_nil.mp h2)
    rw [if_neg hno]

theorem replaceGo_fuel (pat repl : List Char) :
    ∀ fuel₁ fuel₂ s, s.length ≤ fuel₁ → s.length ≤ fuel₂ →
      replaceGo pat repl fuel₁ s = replaceGo pat repl fuel₂ s := by
  intro fuel₁
  induction fuel₁ with
  | zero =>
    intro fuel₂ s hs₁ _
    have : s = [] := List.eq_nil_of_length_eq_zero (Nat.le_zero.mp hs₁)
    subst this
    rw [replaceGo_nil, replaceGo_nil]
  | succ f ih =>
    intro fuel₂ s hs₁ hs₂
    match s with
    | [] => rw [replaceGo_nil, replaceGo_nil]
    | c :: s' =>
      match fuel₂ with
      | 0 => simp at hs₂
      | g + 1 =>
        rw [replaceGo, replaceGo]
        by_cases h : pat ≠ [] ∧ pat <+: (c :: s')
        · rw [if_pos h, if_pos h]
          have hplen : 0 < pat.length := List.length_pos.mpr h.1
          have hdrop : ((c :: s').drop pat.length).length ≤ f := by
            simp only [List.length_drop, List.length_cons]
            simp only [List.length_cons] at hs₁
            omega
          have hdrop₂ : ((c :: s').drop pat.length).length ≤ g := by
            simp only [List.length_drop, List.length_cons]
            simp only [List.length_cons] at hs₂
            omega
          rw [ih g _ hdrop hdrop₂]
        · rw [if_neg h, if_neg h]
          have hs₁' : s'.length ≤ f := by
            simp only [List.length_cons] at hs₁; omega
          have hs₂' : s'.length ≤ g := by
            simp only [List.length_cons] at hs₂; omega
          rw [ih g s' hs₁' hs₂']

theorem listReplace_nil (pat repl : List Char) : listReplace pat repl [] = [] := rfl

theorem listReplace_head_match {pat s : List Char} (repl : List Char)
    (h1 : pat ≠ []) (h2 : pat <+: s) :
    listReplace pat repl s = repl ++ listReplace pat repl (s.drop pat.length) := by
  match s with
  | [] => exact absurd (List.prefix_nil.mp h2) h1
  | c :: s' =>
    show replaceGo pat repl (s'.length + 1) (c :: s') = _
    rw [replaceGo, if_pos ⟨h1, h2⟩]
    congr 1
    apply replaceGo_fuel
    · have hplen : 0 < pat.length := List.length_pos.mpr h1
      simp only [List.length_drop, List.length_cons]
      omega
    · exact Nat.le_refl _

theorem listReplace_cons_no_match {pat s : List Char} (repl : List Char) (c : Char)
    (h : ¬ pat <+: (c :: s)) :
    listReplace pat repl (c :: s) = c :: listReplace pat repl s := by
  show replaceGo pat repl (s.length + 1) (c :: s) = _
  rw [replaceGo]
  have hno : ¬ (pat ≠ [] ∧ pat <+: (c :: s)) := by
    rintro ⟨_, h2⟩; exact h h2
  rw [if_neg hno]
  rfl

theorem partitionList_nil (pat : List Char) : partitionList pat [] = ([], false, []) := rfl

theorem partitionList_head_match {pat s : List Char}
    (h1 : pat ≠ []) (h2 : pat <+: s) :
    partitionList pat s = ([], true, s.drop pat.length) := by
  match s with
  | [] => exact absurd (List.prefix_nil.mp h2) h1
  | c :: s' =>
    rw [partitionList, if_pos ⟨h1, h2⟩]

theorem partitionList_cons_no_match {pat s : List Char} (c : Char)
    (h : ¬ pat <+: (c :: s)) :
    partitionList pat (c :: s) =
      ((c :: (partitionList pat s).1, (partitionList pat s).2.1, (partitionList pat s).2.2)) := by
  rw [partitionList]
  have hno : ¬ (pat ≠ [] ∧ pat <+: (c :: s)) := by
    rintro ⟨_, h2⟩; exact h h2
  rw [if_neg hno]

/-!
Command Runner (`CSToolsVirtualEnvironment.run`, lines 100-139).

The subprocess launch itself is an external effect; what the source decides
— how each output line is classified and buffered, and how the completed
process is turned into a result or a raised error — is embedded below.
-/

/-- Destination buffer for one output line: `out` is `final_stdout`, `err`
is `final_stderr`. -/
inductive Buffer where
  | out
  | err
deriving DecidableEq, Repr

/-- Routing decision the Command Runner takes for one output line: the
buffer it is appended to, the severity name used for logging, and the text
appended to that buffer. -/
structure RoutedLine where
  buffer : Buffer
  level : List Char
  text : List Char
deriving DecidableEq, Repr

/-- Line classification from the body of the read loop (lines 121-126):
a line starting with the string `ERROR` or `WARNING` is partitioned at the
first `: `; the part before becomes the level, the part after the text,
and the line goes to the error buffer.  Every other line goes to the
normal buffer at `base_log_level` with its full text. -/
def classifyLine (baseLogLevel line : List Char) : RoutedLine :=
  if chars "ERROR" <+: line ∨ chars "WARNING" <+: line then
    let r := partitionList (chars ": ") line
    { buffer := Buffer.err, level := r.1, text := r.2.2 }
  else
    { buffer := Buffer.out, level := baseLogLevel, text := line }

/-- Semantics of `arg.replace(" ", "")` (line 134): every space character
is removed. -/
def removeSpaces (s : String) : String :=
  String.mk (s.data.filter (fun c => c ≠ ' '))

/-- Reconstruction of the command line used in the failure message
(line 134): each argument has its spaces removed, then all are joined with
single spaces. -/
def joinedCmd (args : List String) : String :=
  String.intercalate " " (args.map removeSpaces)

/-- Error raised by the Command Runner on nonzero exit (line 135),
carrying the exit code and the reconstructed command line. -/
structure CommandFailed where
  returncode : Int
  cmd : String
deriving DecidableEq, Repr

/-- Result of a completed invocation (line 139): the argument vector, the
exit status and the two buffered streams joined with newlines. -/
structure CommandResult where
  args : List String
  returncode : Int
  stdout : String
  stderr : String
deriving DecidableEq, Repr

/-- Completion behaviour of `run` (lines 133-139): given the argument
vector, the `raise_on_failure` flag, the exit status of the child and the
two line buffers, either raise `CommandFailed` or return a
`CommandResult`. -/
def runOutcome (args : List String) (raiseOnFailure : Bool) (returncode : Int)
    (outLines errLines : List String) : Except CommandFailed CommandResult :=
  if raiseOnFailure ∧ returncode ≠ 0 then
    Except.error { returncode := returncode, cmd := joinedCmd args }
  else
    Except.ok
      { args := args, returncode := returncode,
        stdout := String.intercalate "\n" outLines,
        stderr := String.intercalate "\n" errLines }

/-!
Environment Manager (`CSToolsVirtualEnvironment`, lines 19-271).
-/

/-- Fixed hardening flags passed to every pip invocation (lines 190-203). -/
def requiredGeneralArgs : List String :=
  [ "--isolated",
    "--no-cache-dir",
    "--disable-pip-version-check",
    "--trusted-host", "files.pythonhosted.org",
    "--trusted-host", "pypi.org",
    "--trusted-host", "pypi.python.org",
    "--trusted-host", "github.com",
    "--trusted-host", "codeload.github.com" ]

/-- Offline installation recipe substituted for the caller arguments when
`command == "install"` and an offline directory is set (lines 209-220).
Path joining via `Path.joinpath(...).as_posix()` is modelled as
concatenation with a forward slash. -/
def offlineInstallArgs (offlineDirectory : String) : List String :=
  [ "--requirement", offlineDirectory ++ "/requirements.txt",
    "--upgrade",
    "--upgrade-strategy", "eager",
    "--progress-bar", "off",
    "--find-links", offlineDirectory ++ "/dependencies",
    "--no-index" ]

/-- State of the `CSToolsVirtualEnvironment` instance together with the
interpreter facts the source consults: `sysExecutable` is Python
`sys.executable` (the currently running interpreter, line 253) and
`baseExecutable` is `sys._base_executable` (the `system_exe` property,
line 44).  `exeExists` records whether the managed environment executable
path exists on disk (the `exists` property, line 62). -/
structure EnvState where
  isWindows : Bool
  venvPath : String
  offlineDirectory : Option String
  exeExists : Bool
  sysExecutable : String
  baseExecutable : String
deriving DecidableEq, Repr

/-- Managed python executable path (the `exe` property, lines 54-59). -/
def EnvState.exe (st : EnvState) : String :=
  st.venvPath ++ "/" ++ (if st.isWindows then "Scripts" else "bin") ++ "/" ++
    (if st.isWindows then "python.exe" else "python")

/-- System python executable path (the `system_exe` property, lines 40-52;
the existence check it performs does not change the returned path). -/
def EnvState.systemExe (st : EnvState) : String :=
  st.baseExecutable

/-- Existence check of the managed environment (the `exists` property,
lines 61-63). -/
def envExists (st : EnvState) : Bool :=
  st.exeExists

/-- Argument vector issued by `pip(command, *args)` (lines 187-224): the
interpreter, `-m pip`, the command, the fixed hardening flags, then either
the caller arguments or — for `install` with an offline directory set —
the fixed offline recipe. -/
def pipArgv (exe : String) (offlineDirectory : Option String) (command : String)
    (args : List String) : List String :=
  let args :=
    match offlineDirectory with
    | some d => if command = "install" then offlineInstallArgs d else args
    | none => args
  exe :: "-m" :: "pip" :: command :: (requiredGeneralArgs ++ args)

/-- Effect of `with_offline_mode(find_links)` (lines 226-228). -/
def withOfflineMode (st : EnvState) (findLinks : String) : EnvState :=
  { st with offlineDirectory := some findLinks }

/-- Command lines issued by `make()` (lines 244-262), in order: nothing
when the environment exists; otherwise the venv creation run with
`sys.executable`, then `ensurepip` and the pip bootstrap through the
managed interpreter. -/
def makeCommands (st : EnvState) : List (List String) :=
  if envExists st then []
  else
    [ [st.sysExecutable, "-m", "venv", st.venvPath],
      [st.exe, "-m", "ensurepip"],
      pipArgv st.exe st.offlineDirectory "install" ["pip >= 23.1", "--upgrade"] ]

/-- One entry of the temporary directory, with the facts `ensure_directories`
branches on: whether it is a regular file and whether removing it hits a
permission error. -/
structure TmpEntry where
  name : String
  isFile : Bool
  locked : Bool
deriving DecidableEq, Repr

/-- Directory state owned by the Environment Manager: existence of the four
directories it creates and the entries of the temporary directory. -/
structure AppDirs where
  rootExists : Bool
  cacheExists : Bool
  logExists : Bool
  tmpExists : Bool
  tmpEntries : List TmpEntry
deriving DecidableEq, Repr

/-- Effect of `ensure_directories()` (lines 230-242): the four directories
are created with `parents=True, exist_ok=True`; every temp entry is then
removed unless it is permission-locked — a locked file raises
`PermissionError`, which is caught and logged (second component), while a
locked directory is silently kept by `rmtree(ignore_errors=True)`.  The
call itself always completes. -/
def ensureDirectories (d : AppDirs) : AppDirs × List String :=
  ( { rootExists := true, cacheExists := true, logExists := true, tmpExists := true,
      tmpEntries := d.tmpEntries.filter (fun e => e.locked) },
    (d.tmpEntries.filter (fun e => e.locked && e.isFile)).map (fun e => e.name) )

/-!
PATH Registrar, POSIX variant (`UnixPath`, lines 398-480).
-/

/-- Exact profile snippet appended to shell profiles (the `profile_snippet`
property, lines 416-430), as a function of the bin directory text. -/
def profileSnippet (binDir : List Char) : List Char :=
  chars "\n# absolute path to ThoughtSpot" ++ [apos] ++
    chars "s CS Tools\nexport PATH=\"$PATH:" ++ binDir ++
    chars "\"\nexport LC_ALL=en_US.utf-8\nexport LANG=en_US.utf-8\n"

/-- Contents of the shell profile files `get_shell_profiles` iterates over
(lines 432-454), in order: the base profile `~/.profile` first, then the
zsh and bash profiles resolved from the environment.  `none` means the
file does not exist on disk. -/
structure UnixStore where
  base : Option (List Char)
  others : List (Option (List Char))
deriving DecidableEq, Repr

/-- Effect of `Path.touch(exist_ok=True)` on a file content: a missing file
becomes an empty one, an existing file is unchanged. -/
def touchFile : Option (List Char) → Option (List Char)
  | none => some []
  | some t => some t

/-- Per-file body of `UnixPath.add` (lines 456-466): missing files are
skipped; the snippet is appended exactly when it is not already present
verbatim. -/
def unixAddFile (snip : List Char) : Option (List Char) → Option (List Char)
  | none => none
  | some t => if snip <:+: t then some t else some (t ++ snip)

/-- Per-file body of `UnixPath.unset` (lines 468-480): missing files are
skipped; when the snippet occurs, the file is rewritten with
`contents.replace(snippet, "")`. -/
def unixUnsetFile (snip : List Char) : Option (List Char) → Option (List Char)
  | none => none
  | some t => if snip <:+: t then some (listReplace snip [] t) else some t

/-- `UnixPath.add` over the whole store: `get_shell_profiles` first touches
the base profile (line 438), then every profile in the list is processed. -/
def unixAdd (snip : List Char) (s : UnixStore) : UnixStore :=
  { base := unixAddFile snip (touchFile s.base),
    others := s.others.map (unixAddFile snip) }

/-- `UnixPath.unset` over the whole store: it resolves profiles through the
same `get_shell_profiles`, so the base profile is touched here as well. -/
def unixUnset (snip : List Char) (s : UnixStore) : UnixStore :=
  { base := unixUnsetFile snip (touchFile s.base),
    others := s.others.map (unixUnsetFile snip) }

/-!
PATH Registrar, Windows variant (`WindowsPath`, lines 301-395).
-/

/-- Observable target-store state of the Windows variant: the `PATH` value
of the `HKEY_CURRENT_USER\Environment` registry key (`none` when the value
cannot be read) and whether the two executable links have been placed into
the user script directory by the fallback branch. -/
structure WinStore where
  path : Option (List Char)
  linksPlaced : Bool
deriving DecidableEq, Repr

/-- `WindowsPath.add` (lines 358-377): with no readable `PATH` value the
two executable symlinks (or copies) are placed; otherwise `;<bin_dir>` is
appended unless `bin_dir` already occurs in the value as a substring. -/
def winAdd (binDir : List Char) (w : WinStore) : WinStore :=
  match w.path with
  | none => { w with linksPlaced := true }
  | some p =>
    if binDir <:+: p then w
    else { w with path := some (p ++ ';' :: binDir) }

/-- `WindowsPath.unset` (lines 379-395): with no readable `PATH` value the
two placed links are unlinked (`missing_ok=True`); otherwise the value is
unconditionally rewritten as `PATH.replace(";" + bin_dir, "")`. -/
def winUnset (binDir : List Char) (w : WinStore) : WinStore :=
  match w.path with
  | none => { w with linksPlaced := false }
  | some p => { w with path := some (listReplace (';' :: binDir) [] p) }

/-!
PATH Registrar, fish variant (`FishPath`, lines 276-298).
-/

/-- Modelled from the spec: `FishPath.add` delegates to the external fish
builtin `fish_add_path` (line 294), whose behaviour is not part of this
repository.  Per the fish documentation (and the idempotence note in the
source), it appends the directory to the user paths only when it is not
already a component. -/
def fishAdd (binDir : List Char) (paths : List (List Char)) : List (List Char) :=
  if binDir ∈ paths then paths else paths ++ [binDir]

/-- Modelled from the spec: `FishPath.unset` delegates to the external fish
builtins `set` and `string match -v` (line 298), filtering the directory
out of the path components. -/
def fishUnset (binDir : List Char) (paths : List (List Char)) : List (List Char) :=
  paths.filter (fun p => p ≠ binDir)

/-!
Cleanliness predicates used as hypotheses of the registrar theorems.
-/

/-- Property of a file content `t` relative to a pattern: after appending
the pattern, no occurrence of the pattern starts strictly inside `t`.
This rules out both a pre-existing occurrence and an occurrence formed at
the append boundary. -/
def cleanAppendOk (pat t : List Char) : Prop :=
  ∀ i < t.length, ¬ pat <+: (t.drop i ++ pat)

instance (pat t : List Char) : Decidable (cleanAppendOk pat t) :=
  inferInstanceAs (Decidable (∀ i < t.length, ¬ pat <+: (t.drop i ++ pat)))

/-- Optional-file version of `cleanAppendOk`: missing files impose no
condition. -/
def fileCleanOk (pat : List Char) : Option (List Char) → Prop
  | none => True
  | some t => cleanAppendOk pat t

instance (pat : List Char) : (t : Option (List Char)) → Decidable (fileCleanOk pat t)
  | none => isTrue trivial
  | some t => inferInstanceAs (Decidable (cleanAppendOk pat t))

/-- A file either does not exist or does not contain the pattern. -/
def fileFreeOf (pat : List Char) : Option (List Char) → Prop
  | none => True
  | some t => ¬ pat <:+: t

instance (pat : List Char) : (t : Option (List Char)) → Decidable (fileFreeOf pat t)
  | none => isTrue trivial
  | some t => inferInstanceAs (Decidable (¬ pat <:+: t))

/-- Registration absent from the Windows store: either no readable `PATH`
value and no placed links, or a `PATH` value that does not contain the bin
directory as a substring. -/
def winRegAbsent (binDir : List Char) (w : WinStore) : Prop :=
  match w.path with
  | none => w.linksPlaced = false
  | some p => ¬ binDir <:+: p

instance (binDir : List Char) : (w : WinStore) → Decidable (winRegAbsent binDir w)
  | ⟨none, lp⟩ => inferInstanceAs (Decidable (lp = false))
  | ⟨some p, _⟩ => inferInstanceAs (Decidable (¬ binDir <:+: p))

/-- Windows store clean for registration: no readable `PATH` value with no
placed links, or a `PATH` value free of the bin directory that also cannot
form a boundary-straddling occurrence of `;<bin_dir>` when it is
appended. -/
def winCleanOk (binDir : List Char) (w : WinStore) : Prop :=
  match w.path with
  | none => w.linksPlaced = false
  | some p => ¬ binDir <:+: p ∧ cleanAppendOk (';' :: binDir) p

instance (binDir : List Char) : (w : WinStore) → Decidable (winCleanOk binDir w)
  | ⟨none, lp⟩ => inferInstanceAs (Decidable (lp = false))
  | ⟨some p, _⟩ =>
    inferInstanceAs (Decidable (¬ binDir <:+: p ∧ cleanAppendOk (';' :: binDir) p))

/-!
Helper lemmas about the string operations.
-/

theorem cleanAppendOk_no_occurrence {pat t : List Char} (hpat : pat ≠ [])
    (h : cleanAppendOk pat t) : ¬ pat <:+: t := by
  rintro ⟨s₁, s₂, heq⟩
  have hplen : 0 < pat.length := List.length_pos.mpr hpat
  have hi : s₁.length < t.length := by
    rw [← heq]
    simp only [List.length_append]
    omega
  apply h s₁.length hi
  have hd : t.drop s₁.length = pat ++ s₂ := by
    rw [← heq, List.append_assoc, List.drop_left]
  rw [hd]
  exact ⟨s₂ ++ pat, by simp⟩

theorem cleanAppendOk_cons {pat : List Char} {c : Char} {t : List Char}
    (h : cleanAppendOk pat (c :: t)) : cleanAppendOk pat t := by
  intro i hi
  have h' := h (i + 1) (by simp only [List.length_cons]; omega)
  rwa [List.drop_succ_cons] at h'

theorem listReplace_append_self {pat t : List Char} (hpat : pat ≠ [])
    (h : cleanAppendOk pat t) : listReplace pat [] (t ++ pat) = t := by
  induction t with
  | nil =>
    simp only [List.nil_append]
    rw [listReplace_head_match [] hpat List.prefix_rfl, List.drop_length, listReplace_nil]
    rfl
  | cons c t ih =>
    have h0 : ¬ pat <+: (c :: (t ++ pat)) := by
      have h' := h 0 (by simp)
      simpa using h'
    rw [List.cons_append, listReplace_cons_no_match [] c h0,
      ih (cleanAppendOk_cons h)]

theorem listReplace_no_occurrence {pat t : List Char} (hpat : pat ≠ [])
    (h : ¬ pat <:+: t) : listReplace pat [] t = t := by
  induction t with
  | nil => exact listReplace_nil pat []
  | cons c t ih =>
    have h0 : ¬ pat <+: (c :: t) := fun hp => h hp.isInfix
    rw [listReplace_cons_no_match [] c h0, ih (fun hi => h (List.infix_cons hi))]

theorem listReplace_single {pat a b : List Char} (hpat : pat ≠ [])
    (ha : ∀ i < a.length, ¬ pat <+: ((a ++ pat ++ b).drop i))
    (hb : ¬ pat <:+: b) :
    listReplace pat [] (a ++ pat ++ b) = a ++ b := by
  induction a with
  | nil =>
    simp only [List.nil_append]
    rw [listReplace_head_match [] hpat (List.prefix_append pat b), List.drop_left,
      listReplace_no_occurrence hpat hb]
    rfl
  | cons c a ih =>
    have hsh : (c :: a) ++ pat ++ b = c :: (a ++ pat ++ b) := by simp
    have h0 : ¬ pat <+: (c :: (a ++ pat ++ b)) := by
      have h' := ha 0 (by simp)
      rwa [List.drop_zero, hsh] at h'
    have ha' : ∀ i < a.length, ¬ pat <+: ((a ++ pat ++ b).drop i) := by
      intro i hi
      have h' := ha (i + 1) (by simp only [List.length_cons]; omega)
      rwa [hsh, List.drop_succ_cons] at h'
    calc listReplace pat [] ((c :: a) ++ pat ++ b)
        = listReplace pat [] (c :: (a ++ pat ++ b)) := by rw [hsh]
      _ = c :: listReplace pat [] (a ++ pat ++ b) :=
          listReplace_cons_no_match [] c h0
      _ = c :: (a ++ b) := by rw [ih ha']
      _ = (c :: a) ++ b := by simp

theorem partitionList_no_occurrence {pat t : List Char}
    (h : ¬ pat <:+: t) : partitionList pat t = (t, false, []) := by
  induction t with
  | nil => exact partitionList_nil pat
  | cons c t ih =>
    have h0 : ¬ pat <+: (c :: t) := fun hp => h hp.isInfix
    rw [partitionList_cons_no_match c h0, ih (fun hi => h (List.infix_cons hi))]

theorem not_colonspace_prefix_cons {c : Char} (hc : c ≠ ':') (s : List Char) :
    ¬ chars ": " <+: (c :: s) := by
  intro h
  rw [show chars ": " = ':' :: [' '] from rfl, List.cons_prefix_cons] at h
  exact hc h.1.symm

theorem partitionList_warning (rest : List Char) :
    partitionList (chars ": ") (chars "WARNING: " ++ rest) =
      (chars "WARNING", true, rest) := by
  show partitionList (chars ": ")
      ('W' :: 'A' :: 'R' :: 'N' :: 'I' :: 'N' :: 'G' :: ':' :: ' ' :: rest) = _
  rw [partitionList_cons_no_match 'W' (not_colonspace_prefix_cons (by decide) _)]
  rw [partitionList_cons_no_match 'A' (not_colonspace_prefix_cons (by decide) _)]
  rw [partitionList_cons_no_match 'R' (not_colonspace_prefix_cons (by decide) _)]
  rw [partitionList_cons_no_match 'N' (not_colonspace_prefix_cons (by decide) _)]
  rw [partitionList_cons_no_match 'I' (not_colonspace_prefix_cons (by decide) _)]
  rw [partitionList_cons_no_match 'N' (not_colonspace_prefix_cons (by decide) _)]
  rw [partitionList_cons_no_match 'G' (not_colonspace_prefix_cons (by decide) _)]
  have hp : chars ": " <+: (':' :: ' ' :: rest) := ⟨rest, rfl⟩
  rw [partitionList_head_match (by decide) hp]
  rfl

theorem partitionList_error (rest : List Char) :
    partitionList (chars ": ") (chars "ERROR: " ++ rest) =
      (chars "ERROR", true, rest) := by
  show partitionList (chars ": ")
      ('E' :: 'R' :: 'R' :: 'O' :: 'R' :: ':' :: ' ' :: rest) = _
  rw [partitionList_cons_no_match 'E' (not_colonspace_prefix_cons (by decide) _)]
  rw [partitionList_cons_no_match 'R' (not_colonspace_prefix_cons (by decide) _)]
  rw [partitionList_cons_no_match 'R' (not_colonspace_prefix_cons (by decide) _)]
  rw [partitionList_cons_no_match 'O' (not_colonspace_prefix_cons (by decide) _)]
  rw [partitionList_cons_no_match 'R' (not_colonspace_prefix_cons (by decide) _)]
  have hp : chars ": " <+: (':' :: ' ' :: rest) := ⟨rest, rfl⟩
  rw [partitionList_head_match (by decide) hp]
  rfl

theorem profileSnippet_ne_nil (binDir : List Char) : profileSnippet binDir ≠ [] := by
  intro h
  simp [profileSnippet] at h

theorem unixAddFile_idem (snip : List Char) (c : Option (List Char)) :
    unixAddFile snip (unixAddFile snip c) = unixAddFile snip c := by
  match c with
  | none => rfl
  | some t =>
    by_cases h : snip <:+: t
    · simp [unixAddFile, h]
    · have h2 : snip <:+: (t ++ snip) := ⟨t, [], by simp⟩
      simp [unixAddFile, h, h2]

theorem touchFile_addFile (snip : List Char) (c : Option (List Char)) :
    touchFile (unixAddFile snip (touchFile c)) = unixAddFile snip (touchFile c) := by
  match c with
  | none =>
    show touchFile (unixAddFile snip (some [])) = unixAddFile snip (some [])
    by_cases h : snip <:+: ([] : List Char) <;> simp [unixAddFile, h, touchFile]
  | some t =>
    show touchFile (unixAddFile snip (some t)) = unixAddFile snip (some t)
    by_cases h : snip <:+: t <;> simp [unixAddFile, h, touchFile]

/-!
Claim theorems.
-/

/-- C1: for every call of `pip(command, *args)`, when `command` is
`install` and an offline source directory has been configured via
`with_offline_mode`, the caller-supplied args are ignored entirely and
replaced by the fixed offline recipe (`--requirement <dir>/requirements.txt`,
`--upgrade`, eager upgrade strategy, progress bar off,
`--find-links <dir>/dependencies`, `--no-index`); with no offline directory
configured, the caller args are passed through verbatim alongside the fixed
hardening flags. -/
theorem c1_pip_offline_override :
    (∀ (exe d : String) (args args' : List String),
      pipArgv exe (some d) "install" args = pipArgv exe (some d) "install" args') ∧
    (∀ (st : EnvState) (p : String), (withOfflineMode st p).offlineDirectory = some p) ∧
    (∀ (exe d : String) (args : List String),
      pipArgv exe (some d) "install" args =
        exe :: "-m" :: "pip" :: "install" ::
          (requiredGeneralArgs ++
            [ "--requirement", d ++ "/requirements.txt",
              "--upgrade",
              "--upgrade-strategy", "eager",
              "--progress-bar", "off",
              "--find-links", d ++ "/dependencies",
              "--no-index" ])) ∧
    (∀ (exe command : String) (args : List String),
      pipArgv exe none command args =
        exe :: "-m" :: "pip" :: command :: (requiredGeneralArgs ++ args)) :=
  ⟨fun _ _ _ _ => rfl, fun _ _ => rfl, fun _ _ _ => rfl, fun _ _ _ => rfl⟩

/-- C2: if `exists()` is true, then `make()` returns immediately and issues
no command at all — in particular no environment-builder invocation and no
filesystem mutation. -/
theorem c2_make_noop_when_exists (st : EnvState) (h : envExists st = true) :
    makeCommands st = [] := by
  simp [makeCommands, h]

/-- Witness for C2 at a concrete state whose managed executable exists. -/
theorem c2_make_noop_when_exists_witness :
    envExists ⟨false, "/home/u/.config/cs_tools/.cs_tools", none, true,
        "/usr/bin/python3", "/usr/bin/python3"⟩ = true ∧
    makeCommands ⟨false, "/home/u/.config/cs_tools/.cs_tools", none, true,
        "/usr/bin/python3", "/usr/bin/python3"⟩ = [] :=
  ⟨rfl, c2_make_noop_when_exists _ rfl⟩

/-- C4: with `raise_on_failure` set, `run` fails exactly when the child
exits nonzero, and the raised error carries the exit code together with the
space-joined, space-stripped reconstruction of the argument vector; with
`raise_on_failure` unset a nonzero exit is returned as a `CommandResult`
carrying that exit status. -/
theorem c4_run_failure_semantics (args : List String) (rc : Int)
    (outs errs : List String) :
    (rc ≠ 0 → runOutcome args true rc outs errs =
      Except.error { returncode := rc, cmd := joinedCmd args }) ∧
    (rc = 0 → runOutcome args true rc outs errs =
      Except.ok ⟨args, rc, String.intercalate "\n" outs, String.intercalate "\n" errs⟩) ∧
    (runOutcome args false rc outs errs =
      Except.ok ⟨args, rc, String.intercalate "\n" outs, String.intercalate "\n" errs⟩) := by
  refine ⟨fun h => ?_, fun h => ?_, ?_⟩
  · simp [runOutcome, h]
  · simp [runOutcome, h]
  · simp [runOutcome]

/-- Witness for C4: exit code 1 raises `CommandFailed` carrying code 1 and
the reconstructed command line with spaces stripped from each argument;
without `raise_on_failure`, the same exit is returned in the result. -/
theorem c4_run_failure_semantics_witness :
    runOutcome ["pip install", "a b"] true 1 [] [] =
      Except.error { returncode := 1, cmd := "pipinstall ab" } ∧
    runOutcome ["pip install", "a b"] false 1 [] [] =
      Except.ok ⟨["pip install", "a b"], 1, "", ""⟩ := by
  have h := c4_run_failure_semantics ["pip install", "a b"] 1 [] []
  refine ⟨?_, ?_⟩
  · rw [h.1 (by decide)]
    rfl
  · rw [h.2.2]
    rfl

/-- C3 counterexample: the line `WARNING disk low` does not begin with an
`ERROR`/`WARNING` token followed by `: `, so the claim says it is routed to
the normal buffer at `base_level`; the code routes every line that merely
starts with the string `ERROR` or `WARNING` to the error buffer, here with
the whole line as the severity name and empty text. -/
theorem c3_prefix_routing_counterexample :
    ¬ (chars "ERROR: " <+: chars "WARNING disk low") ∧
    ¬ (chars "WARNING: " <+: chars "WARNING disk low") ∧
    classifyLine (chars "INFO") (chars "WARNING disk low") =
      { buffer := Buffer.err, level := chars "WARNING disk low", text := [] } := by
  decide

/-- C3 amended: a line beginning with the string `ERROR` or `WARNING`
(whatever follows) is partitioned at its first `: ` and routed to the error
buffer, the text before the separator becoming the severity and the text
after it the buffered text — so `WARNING: disk low` is classified at
WARNING severity with text `disk low`, while such a line with no `: ` goes
to the error buffer with the whole line as severity and empty text; every
line not beginning with those strings is routed to the normal buffer at
`base_level` with its full text. -/
theorem c3_prefix_routing_amended :
    (∀ (base rest : List Char),
      classifyLine base (chars "WARNING: " ++ rest) =
        { buffer := Buffer.err, level := chars "WARNING", text := rest }) ∧
    (∀ (base rest : List Char),
      classifyLine base (chars "ERROR: " ++ rest) =
        { buffer := Buffer.err, level := chars "ERROR", text := rest }) ∧
    (∀ (base line : List Char),
      ¬ chars "ERROR" <+: line → ¬ chars "WARNING" <+: line →
        classifyLine base line = { buffer := Buffer.out, level := base, text := line }) ∧
    (∀ (base line : List Char),
      (chars "ERROR" <+: line ∨ chars "WARNING" <+: line) →
      ¬ chars ": " <:+: line →
        classifyLine base line = { buffer := Buffer.err, level := line, text := [] }) ∧
    classifyLine (chars "INFO") (chars "WARNING: disk low") =
      { buffer := Buffer.err, level := chars "WARNING", text := chars "disk low" } := by
  refine ⟨fun base rest => ?_, fun base rest => ?_, fun base line h1 h2 => ?_,
    fun base line h1 h2 => ?_, by decide⟩
  · have hw : chars "WARNING" <+: (chars "WARNING: " ++ rest) := ⟨chars ": " ++ rest, rfl⟩
    unfold classifyLine
    rw [if_pos (Or.inr hw), partitionList_warning]
  · have he : chars "ERROR" <+: (chars "ERROR: " ++ rest) := ⟨chars ": " ++ rest, rfl⟩
    unfold classifyLine
    rw [if_pos (Or.inl he), partitionList_error]
  · unfold classifyLine
    rw [if_neg (by rintro (h | h) <;> [exact h1 h; exact h2 h])]
  · unfold classifyLine
    rw [if_pos h1, partitionList_no_occurrence h2]

/-- Witness for C3 amended, applying each routing case at a concrete
line. -/
theorem c3_prefix_routing_amended_witness :
    classifyLine (chars "INFO") (chars "WARNING: low") =
      { buffer := Buffer.err, level := chars "WARNING", text := chars "low" } ∧
    classifyLine (chars "INFO") (chars "hello") =
      { buffer := Buffer.out, level := chars "INFO", text := chars "hello" } ∧
    classifyLine (chars "INFO") (chars "WARNINGfoo") =
      { buffer := Buffer.err, level := chars "WARNINGfoo", text := [] } :=
  ⟨c3_prefix_routing_amended.1 (chars "INFO") (chars "low"),
   c3_prefix_routing_amended.2.2.1 (chars "INFO") (chars "hello") (by decide) (by decide),
   c3_prefix_routing_amended.2.2.2.1 (chars "INFO") (chars "WARNINGfoo")
     (by decide) (by decide)⟩

/-- Concrete state for C5: the process runs from inside the managed
environment (so `sys.executable` is the managed interpreter) and the
managed environment does not exist (for example right after `reset`
destroyed it). -/
def c5State : EnvState :=
  { isWindows := false,
    venvPath := "/home/u/.config/cs_tools/.cs_tools",
    offlineDirectory := none,
    exeExists := false,
    sysExecutable := "/home/u/.config/cs_tools/.cs_tools/bin/python",
    baseExecutable := "/usr/bin/python3" }

/-- C5 records a code bug: the claim (and the TODO comment in the source)
say the environment-builder must be invoked with the system interpreter and
never the managed one, but line 253 uses `sys.executable`, the currently
running interpreter.  When the process runs from inside the managed
environment, `make()` invokes the builder with the managed interpreter,
which differs from the system interpreter `sys._base_executable`. -/
theorem c5_make_uses_running_interpreter :
    (makeCommands c5State).head? =
      some [c5State.sysExecutable, "-m", "venv", c5State.venvPath] ∧
    c5State.sysExecutable = c5State.exe ∧
    c5State.sysExecutable ≠ c5State.systemExe :=
  ⟨rfl, rfl, by decide⟩

/-- C6: on every PATH Registrar variant and every initial target-store
content, calling `add` twice yields the same target-store content as
calling it once. -/
theorem c6_add_idempotent (binDir : List Char) (u : UnixStore) (w : WinStore)
    (f : List (List Char)) :
    unixAdd (profileSnippet binDir) (unixAdd (profileSnippet binDir) u) =
      unixAdd (profileSnippet binDir) u ∧
    winAdd binDir (winAdd binDir w) = winAdd binDir w ∧
    fishAdd binDir (fishAdd binDir f) = fishAdd binDir f := by
  refine ⟨?_, ?_, ?_⟩
  · simp only [unixAdd, touchFile_addFile, unixAddFile_idem, List.map_map]
    congr 1
    exact List.map_congr_left (fun t _ => unixAddFile_idem _ t)
  · obtain ⟨p, links⟩ := w
    match p with
    | none => rfl
    | some p =>
      by_cases h : binDir <:+: p
      · simp only [winAdd, if_pos h]
      · simp only [winAdd, if_neg h]
        have h2 : binDir <:+: (p ++ ';' :: binDir) := ⟨p ++ [';'], [], by simp⟩
        simp only [if_pos h2]
  · by_cases h : binDir ∈ f
    · simp only [fishAdd, if_pos h]
    · simp only [fishAdd, if_neg h]
      have h2 : binDir ∈ f ++ [binDir] := by simp
      simp only [if_pos h2]

/-- C7 counterexample: a store whose only profile content is the snippet
minus its final newline is freshly clean (it does not contain the snippet),
yet after `add` the appended snippet overlaps the old content — the first
occurrence found by the rewrite starts inside the old content — so `unset`
does not restore the original bytes. -/
theorem c7_inverse_counterexample :
    let snip := profileSnippet (chars "b")
    let c := snip.take (snip.length - 1)
    ¬ snip <:+: c ∧
    unixUnset snip (unixAdd snip ⟨some c, []⟩) ≠ (⟨some c, []⟩ : UnixStore) := by
  decide

/-- Round trip on a single profile file whose content cannot interact with
the appended snippet. -/
theorem unixRoundtripFile {snip t : List Char} (hpat : snip ≠ [])
    (h : cleanAppendOk snip t) :
    unixUnsetFile snip (unixAddFile snip (some t)) = some t := by
  have hni : ¬ snip <:+: t := cleanAppendOk_no_occurrence hpat h
  simp only [unixAddFile, if_neg hni]
  have hsuf : snip <:+: (t ++ snip) := ⟨t, [], by simp⟩
  simp only [unixUnsetFile, if_pos hsuf]
  rw [listReplace_append_self hpat h]

/-- C7 amended: for a freshly clean target store — the registration is
absent, the base profile file exists, and no stored content can combine
with the appended registration text to form an occurrence that starts
inside the old content — `add()` followed by `unset()` restores the store
to its original content byte-for-byte, on every PATH Registrar variant. -/
theorem c7_add_unset_inverse (binDir : List Char) (u : UnixStore) (w : WinStore)
    (f : List (List Char))
    (hbase : u.base ≠ none)
    (hb : fileCleanOk (profileSnippet binDir) u.base)
    (ho : ∀ t ∈ u.others, fileCleanOk (profileSnippet binDir) t)
    (hw : winCleanOk binDir w)
    (hf : binDir ∉ f) :
    unixUnset (profileSnippet binDir) (unixAdd (profileSnippet binDir) u) = u ∧
    winUnset binDir (winAdd binDir w) = w ∧
    fishUnset binDir (fishAdd binDir f) = f := by
  have hpat := profileSnippet_ne_nil binDir
  refine ⟨?_, ?_, ?_⟩
  · obtain ⟨base, others⟩ := u
    match base with
    | none => exact absurd rfl hbase
    | some b =>
      have hcb : cleanAppendOk (profileSnippet binDir) b := hb
      simp only [unixAdd, unixUnset, touchFile_addFile]
      congr 1
      · show unixUnsetFile _ (unixAddFile _ (touchFile (some b))) = some b
        show unixUnsetFile _ (unixAddFile _ (some b)) = some b
        exact unixRoundtripFile hpat hcb
      · rw [List.map_map]
        refine List.map_congr_left (fun t ht => ?_) |>.trans (List.map_id others)
        match t with
        | none => rfl
        | some c =>
          have hc : cleanAppendOk (profileSnippet binDir) c := ho (some c) ht
          exact unixRoundtripFile hpat hc
  · obtain ⟨p, links⟩ := w
    match p with
    | none =>
      have hl : links = false := hw
      subst hl
      rfl
    | some p =>
      obtain ⟨hnin, hclean⟩ := hw
      simp only [winAdd, if_neg hnin, winUnset]
      have hrw : listReplace (';' :: binDir) [] (p ++ ';' :: binDir) = p :=
        listReplace_append_self (by simp) hclean
      rw [hrw]
  · simp only [fishAdd, if_neg hf, fishUnset, List.filter_append]
    have h1 : List.filter (fun p => decide (p ≠ binDir)) [binDir] = [] := by simp
    have h2 : List.filter (fun p => decide (p ≠ binDir)) f = f :=
      List.filter_eq_self.mpr (fun a ha => decide_eq_true (fun heq => hf (heq ▸ ha)))
    rw [h1, h2, List.append_nil]

/-- Witness for C7 amended at a concrete clean store for each variant. -/
theorem c7_add_unset_inverse_witness :
    unixUnset (profileSnippet (chars "b"))
        (unixAdd (profileSnippet (chars "b"))
          ⟨some (chars "X"), [none, some (chars "Y")]⟩) =
      (⟨some (chars "X"), [none, some (chars "Y")]⟩ : UnixStore) ∧
    winUnset (chars "b") (winAdd (chars "b") ⟨some (chars "C:/Users/u"), false⟩) =
      (⟨some (chars "C:/Users/u"), false⟩ : WinStore) ∧
    fishUnset (chars "b") (fishAdd (chars "b") [chars "/usr/bin"]) =
      [chars "/usr/bin"] :=
  c7_add_unset_inverse (chars "b") ⟨some (chars "X"), [none, some (chars "Y")]⟩
    ⟨some (chars "C:/Users/u"), false⟩ [chars "/usr/bin"]
    (by decide) (by decide) (by decide) (by decide) (by decide)

/-- C8 counterexample: on a profile containing the snippet twice, the
rewrite `contents.replace(snippet, "")` removes both occurrences, not only
the first one — removing only the first would leave `X` followed by the
snippet. -/
theorem c8_unset_counterexample :
    let snip := profileSnippet (chars "b")
    unixUnsetFile snip (some (snip ++ chars "X" ++ snip)) = some (chars "X") ∧
    some (chars "X") ≠ some (chars "X" ++ snip) := by
  decide

/-- C8 amended: `unset()` rewrites each existing target profile file in
place, removing every non-overlapping occurrence of the exact snippet,
scanning left to right; in particular, when the snippet occurs exactly once
— no occurrence starts inside the text before it and none occurs in the
text after it — exactly that occurrence is removed and the rest of the
content is unchanged. -/
theorem c8_unset_removes_snippet (binDir a b : List Char)
    (ha : ∀ i < a.length,
      ¬ profileSnippet binDir <+: ((a ++ profileSnippet binDir ++ b).drop i))
    (hb : ¬ profileSnippet binDir <:+: b) :
    unixUnsetFile (profileSnippet binDir)
        (some (a ++ profileSnippet binDir ++ b)) = some (a ++ b) := by
  have hpat := profileSnippet_ne_nil binDir
  have hin : profileSnippet binDir <:+: (a ++ profileSnippet binDir ++ b) := ⟨a, b, rfl⟩
  simp only [unixUnsetFile, if_pos hin]
  rw [listReplace_single hpat ha hb]

/-- Witness for C8 amended at a concrete single-occurrence content. -/
theorem c8_unset_removes_snippet_witness :
    unixUnsetFile (profileSnippet (chars "b"))
        (some (chars "A" ++ profileSnippet (chars "b") ++ chars "B")) =
      some (chars "A" ++ chars "B") :=
  c8_unset_removes_snippet (chars "b") (chars "A") (chars "B") (by decide) (by decide)

/-- C9 counterexample: with no profile file at all the registration is
absent from every target store, yet `unset()` on the POSIX variant is not a
no-op — profile resolution creates the base profile file (empty), changing
the store. -/
theorem c9_unset_absent_counterexample :
    unixUnset (profileSnippet (chars "b")) ⟨none, []⟩ ≠ (⟨none, []⟩ : UnixStore) := by
  decide

/-- C9 amended: when the registration is absent from every target store,
`unset()` leaves the content of every existing store unchanged on every
PATH Registrar variant; the one deviation from a strict no-op is that the
POSIX variant resolves its profiles through a step that creates the base
profile file (empty) when it does not exist — no other file is created. -/
theorem c9_unset_absent_noop (binDir : List Char) (u : UnixStore) (w : WinStore)
    (f : List (List Char))
    (hbase : u.base ≠ none)
    (hb : fileFreeOf (profileSnippet binDir) u.base)
    (ho : ∀ t ∈ u.others, fileFreeOf (profileSnippet binDir) t)
    (hw : winRegAbsent binDir w)
    (hf : binDir ∉ f) :
    unixUnset (profileSnippet binDir) u = u ∧
    winUnset binDir w = w ∧
    fishUnset binDir f = f := by
  refine ⟨?_, ?_, ?_⟩
  · obtain ⟨base, others⟩ := u
    match base with
    | none => exact absurd rfl hbase
    | some b =>
      have hnb : ¬ profileSnippet binDir <:+: b := hb
      simp only [unixUnset]
      congr 1
      · show unixUnsetFile _ (touchFile (some b)) = some b
        show unixUnsetFile _ (some b) = some b
        simp only [unixUnsetFile, if_neg hnb]
      · refine List.map_congr_left (fun t ht => ?_) |>.trans (List.map_id others)
        match t with
        | none => rfl
        | some c =>
          have hnc : ¬ profileSnippet binDir <:+: c := ho (some c) ht
          simp only [unixUnsetFile, if_neg hnc]
          rfl
  · obtain ⟨p, links⟩ := w
    match p with
    | none =>
      have hl : links = false := hw
      subst hl
      rfl
    | some p =>
      have hnin : ¬ binDir <:+: p := hw
      have hnin' : ¬ (';' :: binDir) <:+: p := by
        rintro ⟨s₁, s₂, heq⟩
        exact hnin ⟨s₁ ++ [';'], s₂, by rw [← heq]; simp⟩
      simp only [winUnset]
      rw [listReplace_no_occurrence (by simp) hnin']
  · exact List.filter_eq_self.mpr (fun a ha => decide_eq_true (fun heq => hf (heq ▸ ha)))

/-- Witness for C9 amended at concrete stores with the registration
absent. -/
theorem c9_unset_absent_noop_witness :
    unixUnset (profileSnippet (chars "b")) ⟨some (chars "X"), [none, some (chars "Y")]⟩ =
      (⟨some (chars "X"), [none, some (chars "Y")]⟩ : UnixStore) ∧
    winUnset (chars "b") ⟨some (chars "C:/Users/u"), false⟩ =
      (⟨some (chars "C:/Users/u"), false⟩ : WinStore) ∧
    fishUnset (chars "b") [chars "/usr/bin"] = [chars "/usr/bin"] :=
  c9_unset_absent_noop (chars "b") ⟨some (chars "X"), [none, some (chars "Y")]⟩
    ⟨some (chars "C:/Users/u"), false⟩ [chars "/usr/bin"]
    (by decide) (by decide) (by decide) (by decide) (by decide)

/-- C10 counterexample: with a permission-locked entry in the temporary
directory, `ensure_directories()` completes but does not leave the
temporary directory empty — the locked entry is skipped and remains. -/
theorem c10_ensure_counterexample :
    (ensureDirectories ⟨true, true, true, true, [⟨"report.xlsx", true, true⟩]⟩).1.tmpEntries ≠
      [] := by
  decide

/-- C10 amended: `ensure_directories()` is safe to call repeatedly — it
always completes, creates the root, cache, log and temp directories
(idempotently), and removes every temp entry whose removal does not hit a
permission error; permission-locked entries are skipped (a locked file logs
a warning), so the temp directory is left empty exactly of all removable
entries, and fully empty whenever no entry is locked. -/
theorem c10_ensure_directories (d : AppDirs) :
    ((∀ e ∈ d.tmpEntries, e.locked = false) →
      (ensureDirectories d).1.tmpEntries = []) ∧
    ((ensureDirectories d).1.rootExists = true ∧
      (ensureDirectories d).1.cacheExists = true ∧
      (ensureDirectories d).1.logExists = true ∧
      (ensureDirectories d).1.tmpExists = true) ∧
    (∀ e, e ∈ (ensureDirectories d).1.tmpEntries ↔
      e ∈ d.tmpEntries ∧ e.locked = true) ∧
    (ensureDirectories (ensureDirectories d).1).1 = (ensureDirectories d).1 := by
  refine ⟨fun h => ?_, ⟨rfl, rfl, rfl, rfl⟩, fun e => ?_, ?_⟩
  · simp only [ensureDirectories]
    exact List.filter_eq_nil_iff.mpr (fun e he => by simp [h e he])
  · simp [ensureDirectories, List.mem_filter]
  · simp [ensureDirectories, List.filter_filter]

/-- Witness for C10 amended: with no locked entry the temporary directory
is left empty. -/
theorem c10_ensure_directories_witness :
    (ensureDirectories ⟨false, false, false, false,
        [⟨"a.txt", true, false⟩, ⟨"cache", false, false⟩]⟩).1.tmpEntries = [] :=
  (c10_ensure_directories ⟨false, false, false, false,
      [⟨"a.txt", true, false⟩, ⟨"cache", false, false⟩]⟩).1 (by decide)
